import Mathlib

/-!
Verification development for the Loom ingest-and-enrichment service.

Shallow embedding of the core components under scrutiny:
* the durable disk outbox (`internal/output/outbox.go`),
* the ClickHouse analytics writer's flush and drain logic
  (`internal/output/output.go`),
* the per-sensor fixed-window rate limiter (`internal/ratelimit/ratelimit.go`),
* the credential validator (`internal/auth`),
* the geolocation field setter (`setGeo` in the enricher),
* the ingest HTTP handler (`internal/ingest/ingest.go`) and its metrics
  (`internal/ingest/metrics.go`).

Events are represented by the byte length of their JSON serialization
(`json.Marshal`): the components modelled here never inspect an event beyond
marshalling it, so that length is the only observable the embedding needs.
File-system and network effects are modelled by explicit oracles (a write that
succeeds is pure state, a failing write/insert is an oracle answer).
-/

set_option maxRecDepth 10000

namespace Loom

/-! ## Disk outbox (`internal/output/outbox.go`) -/

/-- Metadata for one spool file, mirroring `spoolFileMeta`.
`name` is a `Nat` standing for the lexicographically ordered file name
(`"%020d-%06d.ndjson"`: nanosecond timestamp then sequence number — strictly
increasing within a process, so the sorted list is append-ordered).
`content` is the batch stored in the file, `none` when the file cannot be read
or parsed (`readBatchFile` fails); `events` is the non-blank line count. -/
structure SpoolMeta where
  name : Nat
  size : Int
  events : Nat
  content : Option (List Nat)
  deriving Repr, DecidableEq

/-- In-memory outbox state, mirroring `diskOutbox` (the mutex is elided:
every claim is about the serialized critical sections). -/
structure Outbox where
  maxBytes : Int
  totalBytes : Int
  files : List SpoolMeta
  seq : Int
  droppedEvents : Int
  deriving Repr, DecidableEq

/-- Sum of `size` over a file list (what `totalBytes` must track). -/
def sumSizes (fs : List SpoolMeta) : Int :=
  fs.foldr (fun f a => f.size + a) 0

/-- Sum of `events` over a file list. -/
def sumEvents (fs : List SpoolMeta) : Nat :=
  fs.foldr (fun f a => f.events + a) 0

@[simp] theorem sumSizes_nil : sumSizes [] = 0 := rfl

@[simp] theorem sumSizes_cons (f : SpoolMeta) (fs : List SpoolMeta) :
    sumSizes (f :: fs) = f.size + sumSizes fs := rfl

@[simp] theorem sumEvents_nil : sumEvents [] = 0 := rfl

@[simp] theorem sumEvents_cons (f : SpoolMeta) (fs : List SpoolMeta) :
    sumEvents (f :: fs) = f.events + sumEvents fs := rfl

theorem sumSizes_append (a b : List SpoolMeta) :
    sumSizes (a ++ b) = sumSizes a + sumSizes b := by
  induction a with
  | nil => simp
  | cons f fs ih => simp [ih]; ring

theorem sumEvents_append (a b : List SpoolMeta) :
    sumEvents (a ++ b) = sumEvents a + sumEvents b := by
  induction a with
  | nil => simp
  | cons f fs ih => simp [ih]; ring

/-- The `for o.totalBytes > o.maxBytes && len(o.files) > 1` loop of
`enforceMaxBytesLocked`, written as structural recursion over the file list.
Returns the retained files, the new `totalBytes` and the events dropped. -/
def enforceLoop (maxB : Int) : List SpoolMeta → Int → List SpoolMeta × Int × Nat
  | [], total => ([], total, 0)
  | [f], total => ([f], total, 0)
  | f :: g :: rest, total =>
    if total > maxB then
      let r := enforceLoop maxB (g :: rest) (total - f.size)
      (r.1, r.2.1, f.events + r.2.2)
    else (f :: g :: rest, total, 0)

/-- `diskOutbox.enforceMaxBytesLocked`: no-op when `maxBytes <= 0`, otherwise
delete oldest files while over the cap and more than one file remains,
accumulating the dropped event count into `droppedEvents`. -/
def enforceMaxBytes (o : Outbox) : Outbox × Nat :=
  if o.maxBytes ≤ 0 then (o, 0)
  else
    let r := enforceLoop o.maxBytes o.files o.totalBytes
    ({ o with
        files := r.1
        totalBytes := r.2.1
        droppedEvents := o.droppedEvents + r.2.2 }, r.2.2)

/-- Serialized size of a batch written as NDJSON: each event's marshalled
bytes plus one newline (`body.Write(b); body.WriteByte('\n')`). -/
def batchBytes (batch : List Nat) : Int :=
  (batch.foldr (fun e a => e + a) 0 : Nat) + batch.length

/-- The spool-file metadata `enqueue` appends for a batch. -/
def mkMeta (name : Nat) (batch : List Nat) : SpoolMeta :=
  { name := name
    size := batchBytes batch
    events := batch.length
    content := some batch }

/-- `diskOutbox.enqueue` (success path: the tmp write and rename succeed;
a failed write leaves the state unchanged and is handled by the callers'
oracles). `name` stands for the generated `"%020d-%06d.ndjson"` name, strictly
larger than every name already present, so the post-sort list is an append. -/
def enqueue (o : Outbox) (name : Nat) (batch : List Nat) : Outbox × Nat :=
  if batch.isEmpty then (o, 0)
  else
    let meta := mkMeta name batch
    enforceMaxBytes
      { o with
          seq := o.seq + 1
          files := o.files ++ [meta]
          totalBytes := o.totalBytes + meta.size }

/-- The scan of `removeByName`'s loop: find the first file with the given
name, returning it and the list with it removed. -/
def removeFirst (name : Nat) : List SpoolMeta → Option (SpoolMeta × List SpoolMeta)
  | [] => none
  | f :: rest =>
    if f.name = name then some (f, rest)
    else
      match removeFirst name rest with
      | none => none
      | some (m, rest') => some (m, f :: rest')

/-- `diskOutbox.removeByName`: drop the first file with the given name,
subtract its size clamping `totalBytes` at zero; `droppedEvents` untouched. -/
def removeByName (o : Outbox) (name : Nat) : Outbox :=
  match removeFirst name o.files with
  | none => o
  | some (meta, files') =>
    let total := o.totalBytes - meta.size
    { o with
        files := files'
        totalBytes := if total < 0 then 0 else total }

/-- `diskOutbox.stats`. -/
def stats (o : Outbox) : Nat × Int × Int :=
  (o.files.length, o.totalBytes, o.droppedEvents)

/-- Characterization of the enforcement loop: it removes a prefix (oldest
first), keeps the byte total consistent, never empties a nonempty list, and
stops only under the cap or with a single file left. -/
theorem enforceLoop_spec (maxB : Int) :
    ∀ (files : List SpoolMeta) (total : Int), total = sumSizes files →
    (enforceLoop maxB files total).2.1 = sumSizes (enforceLoop maxB files total).1 ∧
    ((enforceLoop maxB files total).2.1 ≤ maxB ∨
      (enforceLoop maxB files total).1.length ≤ 1) ∧
    (∃ del, files = del ++ (enforceLoop maxB files total).1 ∧
      (enforceLoop maxB files total).2.2 = sumEvents del) ∧
    (files ≠ [] → (enforceLoop maxB files total).1 ≠ []) := by
  intro files
  induction files with
  | nil =>
    intro total hinv
    refine ⟨by simpa [enforceLoop] using hinv, Or.inr (by simp [enforceLoop]),
      ⟨[], by simp [enforceLoop]⟩, by simp⟩
  | cons f rest ih =>
    intro total hinv
    cases rest with
    | nil =>
      refine ⟨by simpa [enforceLoop] using hinv, Or.inr (by simp [enforceLoop]),
        ⟨[], by simp [enforceLoop]⟩, by simp [enforceLoop]⟩
    | cons g rest' =>
      by_cases h : total > maxB
      · have hinv' : total - f.size = sumSizes (g :: rest') := by
          rw [hinv, sumSizes_cons]; ring
        obtain ⟨h1, h2, ⟨del, hdel, hev⟩, h4⟩ := ih (total - f.size) hinv'
        simp only [enforceLoop, if_pos h]
        refine ⟨h1, h2, ⟨f :: del, ?_, ?_⟩, fun _ => h4 (by simp)⟩
        · simpa using congrArg (List.cons f) hdel
        · simpa [sumEvents_cons] using hev
      · simp only [enforceLoop, if_neg h]
        exact ⟨hinv, Or.inl (by omega), ⟨[], by simp⟩, fun _ => by simp⟩

/-- C1: with a positive byte cap, after an error-free enqueue the in-memory
`totalBytes` equals the sum of the retained spool-file sizes, and either
`totalBytes ≤ cap` or exactly one file remains; the returned `events_dropped`
and the `droppedEvents` counter both increase by exactly the sum of the event
counts of the files deleted, and the deleted files are an oldest-first prefix
of the pre-enforcement list. -/
theorem outbox_enqueue_cap_invariant (o : Outbox) (name : Nat) (batch : List Nat)
    (hcap : 0 < o.maxBytes)
    (hinv : o.totalBytes = sumSizes o.files)
    (hne : batch ≠ []) :
    (enqueue o name batch).1.totalBytes = sumSizes (enqueue o name batch).1.files ∧
    ((enqueue o name batch).1.totalBytes ≤ o.maxBytes ∨
      (enqueue o name batch).1.files.length = 1) ∧
    (∃ del, o.files ++ [mkMeta name batch] = del ++ (enqueue o name batch).1.files ∧
      (enqueue o name batch).2 = sumEvents del ∧
      (enqueue o name batch).1.droppedEvents = o.droppedEvents + sumEvents del) := by
  have hbe : batch.isEmpty = false := by
    cases batch with
    | nil => simp at hne
    | cons a l => rfl
  have hnle : ¬ o.maxBytes ≤ 0 := by omega
  have hinv' : o.totalBytes + (mkMeta name batch).size =
      sumSizes (o.files ++ [mkMeta name batch]) := by
    rw [sumSizes_append, hinv, sumSizes_cons, sumSizes_nil]; ring
  obtain ⟨h1, h2, ⟨del, hdel, hev⟩, h4⟩ :=
    enforceLoop_spec o.maxBytes (o.files ++ [mkMeta name batch])
      (o.totalBytes + (mkMeta name batch).size) hinv'
  have hne' : (enforceLoop o.maxBytes (o.files ++ [mkMeta name batch])
      (o.totalBytes + (mkMeta name batch).size)).1 ≠ [] := h4 (by simp)
  simp only [enqueue, hbe, Bool.false_eq_true, if_false, enforceMaxBytes, hnle]
  refine ⟨h1, ?_, ⟨del, hdel, hev, by rw [hev]⟩⟩
  rcases h2 with h2 | h2
  · exact Or.inl h2
  · right
    have : (enforceLoop o.maxBytes (o.files ++ [mkMeta name batch])
        (o.totalBytes + (mkMeta name batch).size)).1.length ≠ 0 := by
      simpa [List.length_eq_zero] using hne'
    omega

/-- Concrete outbox used to witness C1: cap 5 bytes, one 4-byte file holding
2 events, consistent byte total. -/
def outboxC1 : Outbox :=
  { maxBytes := 5
    totalBytes := 4
    files := [{ name := 1, size := 4, events := 2, content := some [1, 1] }]
    seq := 1
    droppedEvents := 0 }

theorem outbox_enqueue_cap_invariant_witness :
    ((0 : Int) < outboxC1.maxBytes ∧ outboxC1.totalBytes = sumSizes outboxC1.files ∧
      ([2] : List Nat) ≠ []) ∧
    ((enqueue outboxC1 2 [2]).1.totalBytes =
        sumSizes (enqueue outboxC1 2 [2]).1.files ∧
      ((enqueue outboxC1 2 [2]).1.totalBytes ≤ outboxC1.maxBytes ∨
        (enqueue outboxC1 2 [2]).1.files.length = 1) ∧
      (∃ del, outboxC1.files ++ [mkMeta 2 [2]] = del ++ (enqueue outboxC1 2 [2]).1.files ∧
        (enqueue outboxC1 2 [2]).2 = sumEvents del ∧
        (enqueue outboxC1 2 [2]).1.droppedEvents =
          outboxC1.droppedEvents + sumEvents del)) :=
  ⟨⟨by decide, by decide, by decide⟩,
    outbox_enqueue_cap_invariant outboxC1 2 [2] (by decide) (by decide) (by decide)⟩

/-- C9: with a non-positive byte cap, enqueue deletes nothing, returns
`events_dropped = 0` and never increases the dropped counter: every
pre-existing spool file is retained. -/
theorem outbox_enqueue_uncapped (o : Outbox) (name : Nat) (batch : List Nat)
    (hcap : o.maxBytes ≤ 0) :
    (enqueue o name batch).2 = 0 ∧
    (enqueue o name batch).1.droppedEvents = o.droppedEvents ∧
    (enqueue o name batch).1.files =
      o.files ++ (if batch.isEmpty then [] else [mkMeta name batch]) := by
  cases hbe : batch.isEmpty
  · simp only [enqueue, hbe, Bool.false_eq_true, if_false, enforceMaxBytes,
      if_pos hcap]
    simp
  · simp [enqueue, hbe]

/-- Concrete outbox used to witness C9: no byte cap (cap -1). -/
def outboxC9 : Outbox :=
  { maxBytes := -1
    totalBytes := 4
    files := [{ name := 1, size := 4, events := 2, content := some [1, 1] }]
    seq := 1
    droppedEvents := 0 }

theorem outbox_enqueue_uncapped_witness :
    (outboxC9.maxBytes ≤ 0) ∧
    ((enqueue outboxC9 2 [2]).2 = 0 ∧
      (enqueue outboxC9 2 [2]).1.droppedEvents = outboxC9.droppedEvents ∧
      (enqueue outboxC9 2 [2]).1.files =
        outboxC9.files ++ (if ([2] : List Nat).isEmpty then [] else [mkMeta 2 [2]])) :=
  ⟨by decide, outbox_enqueue_uncapped outboxC9 2 [2] (by decide)⟩

/-! ## Analytics-store writer (`clickHouseWriter` in `internal/output/output.go`) -/

/-- Chunking step of `splitBatches`: `i += size` over the slice, written as
recursion (`drop n (x :: xs) = drop (n-1) xs`). -/
def chunksOf (n : Nat) : List Nat → List (List Nat)
  | [] => []
  | x :: xs => (x :: xs).take n :: chunksOf n (xs.drop (n - 1))
  termination_by l => l.length
  decreasing_by simp; omega

/-- `splitBatches`: one chunk when `size <= 0` or the batch already fits,
otherwise contiguous chunks of `size` events. -/
def splitBatches (batch : List Nat) (size : Int) : List (List Nat) :=
  if size ≤ 0 ∨ (batch.length : Int) ≤ size then [batch]
  else chunksOf size.toNat batch

theorem chunksOf_join (n : Nat) (hn : 0 < n) :
    ∀ l : List Nat, (chunksOf n l).flatten = l := by
  intro l
  induction l using chunksOf.induct n with
  | case1 => simp [chunksOf]
  | case2 x xs ih =>
    rw [chunksOf]
    simp only [List.flatten_cons, ih]
    obtain ⟨m, rfl⟩ := Nat.exists_eq_add_of_lt hn
    simp [List.take_cons, Nat.succ_sub_one]

theorem chunksOf_length_le (n : Nat) : ∀ l : List Nat, ∀ c ∈ chunksOf n l,
    c.length ≤ n := by
  intro l
  induction l using chunksOf.induct n with
  | case1 => simp [chunksOf]
  | case2 x xs ih =>
    rw [chunksOf]
    intro c hc
    rcases List.mem_cons.mp hc with h | h
    · subst h; simp
    · exact ih c h

/-- Every chunk of `splitBatches` with a positive size bound fits the bound,
and the chunks concatenate back to the batch in order. -/
theorem splitBatches_spec (batch : List Nat) (size : Int) (hpos : 0 < size) :
    (splitBatches batch size).flatten = batch ∧
    ∀ c ∈ splitBatches batch size, (c.length : Int) ≤ size := by
  unfold splitBatches
  by_cases h : size ≤ 0 ∨ (batch.length : Int) ≤ size
  · rcases h with h | h
    · omega
    · simp only [if_pos (Or.inr h)]
      constructor
      · simp
      · intro c hc
        simp only [List.mem_singleton] at hc
        subst hc; exact h
  · simp only [if_neg h]
    push_neg at h
    refine ⟨chunksOf_join _ (by omega) _, fun c hc => ?_⟩
    have := chunksOf_length_le size.toNat batch c hc
    omega

/-- The buffered analytics writer state (`clickHouseWriter`); only the fields
`flushBuf` reads are modelled. `outbox = none` means the outbox is disabled. -/
structure CHWriter where
  buf : List Nat
  outboxBatchSize : Int
  outbox : Option Outbox
  deriving Repr, DecidableEq

/-- Error values `flushBuf` can return: the upstream insert error or an
outbox enqueue error (each carrying an abstract code). -/
inductive GoErr where
  | insertErr (code : Nat)
  | enqueueErr (code : Nat)
  deriving Repr, DecidableEq

/-- Diagnostics handed to the `flushLog` callback, mirroring the four
`c.flushLog(...)` call sites of `flushBuf`. `enqueueFailed` carries both the
enqueue error and the insert error (the wrapped
`"clickhouse insert failed and outbox enqueue failed: %w (insert err: %v)"`). -/
inductive FlushDiag where
  | ok
  | insertFailed (ierr : Nat)
  | enqueueFailed (qerr : Nat) (ierr : Nat)
  | queuedToOutbox (dropped : Nat) (queueFiles : Nat) (queueBytes : Int) (ierr : Nat)
  deriving Repr, DecidableEq

/-- Result of one `flushBuf` call: new writer state, returned error, the
`flushLog` calls made (rows, diagnostic), and the trace of chunks passed to
`outbox.enqueue` in order. -/
structure FlushResult where
  writer : CHWriter
  ret : Option GoErr
  log : List (Nat × FlushDiag)
  enqueued : List (List Nat)
  deriving Repr, DecidableEq

/-- The `for _, chunk := range splitBatches(...)` loop of `flushBuf`.
`enqFail i` is the IO oracle for the i-th enqueue call: `some q` makes that
call fail with error code `q` (leaving the outbox unchanged, as a failed
write/rename does), `none` lets it run. Returns the outbox after the loop,
the accumulated dropped count, the first enqueue error, and the chunks that
were actually enqueued. -/
def enqLoop (enqFail : Nat → Option Nat) (nameBase : Nat) :
    List (List Nat) → Nat → Outbox → Nat → Outbox × Nat × Option Nat × List (List Nat)
  | [], _, ob, dropped => (ob, dropped, none, [])
  | ch :: rest, i, ob, dropped =>
    match enqFail i with
    | some q => (ob, dropped, some q, [])
    | none =>
      let r := enqueue ob (nameBase + i) ch
      let rest' := enqLoop enqFail nameBase rest (i + 1) r.1 (dropped + r.2)
      (rest'.1, rest'.2.1, rest'.2.2.1, ch :: rest'.2.2.2)

/-- `clickHouseWriter.flushBuf`. `insertRes` is the oracle for the
`insertBatch` HTTP call on the buffered batch (`none` = 2xx, `some ierr` =
transport error or non-2xx). `nameBase` stands for the generated spool-file
names. -/
def flushBuf (c : CHWriter) (insertRes : Option Nat) (enqFail : Nat → Option Nat)
    (nameBase : Nat) : FlushResult :=
  if c.buf.isEmpty then ⟨c, none, [], []⟩
  else
    let batch := c.buf
    let c' : CHWriter := { c with buf := [] }
    match insertRes with
    | none => ⟨c', none, [(batch.length, .ok)], []⟩
    | some ierr =>
      match c.outbox with
      | some ob =>
        let chunks := splitBatches batch c.outboxBatchSize
        let r := enqLoop enqFail nameBase chunks 0 ob 0
        match r.2.2.1 with
        | some q =>
          ⟨{ c' with outbox := some r.1 }, some (.enqueueErr q),
            [(batch.length, .enqueueFailed q ierr)], r.2.2.2⟩
        | none =>
          ⟨{ c' with outbox := some r.1 }, none,
            [(batch.length, .queuedToOutbox r.2.1 r.1.files.length r.1.totalBytes ierr)],
            r.2.2.2⟩
      | none => ⟨c', some (.insertErr ierr), [(batch.length, .insertFailed ierr)], []⟩

theorem enqLoop_all_ok (enqFail : Nat → Option Nat) (nameBase : Nat) :
    ∀ (chunks : List (List Nat)) (i : Nat) (ob : Outbox) (dropped : Nat),
    (∀ j, j < chunks.length → enqFail (i + j) = none) →
    (enqLoop enqFail nameBase chunks i ob dropped).2.2.1 = none ∧
    (enqLoop enqFail nameBase chunks i ob dropped).2.2.2 = chunks := by
  intro chunks
  induction chunks with
  | nil => intro i ob dropped _; simp [enqLoop]
  | cons ch rest ih =>
    intro i ob dropped hok
    have h0 : enqFail i = none := by simpa using hok 0 (by simp)
    have hrec := ih (i + 1) (enqueue ob (nameBase + i) ch).1
      (dropped + (enqueue ob (nameBase + i) ch).2)
      (fun j hj => by
        have := hok (j + 1) (by simpa using Nat.succ_lt_succ hj)
        simpa [Nat.add_assoc, Nat.add_comm 1 j] using this)
    simp only [enqLoop, h0]
    exact ⟨hrec.1, by simp [hrec.2]⟩

theorem enqLoop_first_fail (enqFail : Nat → Option Nat) (nameBase : Nat) :
    ∀ (chunks : List (List Nat)) (i k : Nat) (q : Nat) (ob : Outbox) (dropped : Nat),
    (∀ j, j < k → enqFail (i + j) = none) →
    enqFail (i + k) = some q →
    k < chunks.length →
    (enqLoop enqFail nameBase chunks i ob dropped).2.2.1 = some q ∧
    (enqLoop enqFail nameBase chunks i ob dropped).2.2.2 = chunks.take k := by
  intro chunks
  induction chunks with
  | nil => intro i k q ob dropped _ _ hk; simp at hk
  | cons ch rest ih =>
    intro i k q ob dropped hpre hfail hk
    cases k with
    | zero =>
      have h0 : enqFail i = some q := by simpa using hfail
      simp [enqLoop, h0]
    | succ k' =>
      have h0 : enqFail i = none := by simpa using hpre 0 (Nat.succ_pos k')
      have hrec := ih (i + 1) k' q (enqueue ob (nameBase + i) ch).1
        (dropped + (enqueue ob (nameBase + i) ch).2)
        (fun j hj => by
          have := hpre (j + 1) (Nat.succ_lt_succ hj)
          simpa [Nat.add_assoc, Nat.add_comm 1 j] using this)
        (by simpa [Nat.add_assoc, Nat.add_comm 1 k'] using hfail)
        (by simpa using Nat.lt_of_succ_lt_succ (by simpa using hk))
      simp only [enqLoop, h0]
      exact ⟨hrec.1, by simp [hrec.2]⟩

/-- C2: with the outbox enabled, when delivery of the buffered batch fails,
`flushBuf` splits the batch into chunks of at most `outboxBatchSize` events
that rejoin to the batch; if every enqueue succeeds it enqueues every chunk
in order and returns no error, logging the queued-to-outbox diagnostic; it
returns an error exactly on the first failing enqueue, and then the error
reported to the flush callback carries the enqueue diagnostic together with
the upstream insert error. -/
theorem flushBuf_outbox_spec (c : CHWriter) (ierr : Nat) (enqFail : Nat → Option Nat)
    (nameBase : Nat) (ob : Outbox)
    (hob : c.outbox = some ob)
    (hsize : 0 < c.outboxBatchSize)
    (hbuf : c.buf ≠ []) :
    (splitBatches c.buf c.outboxBatchSize).flatten = c.buf ∧
    (∀ ch ∈ splitBatches c.buf c.outboxBatchSize, (ch.length : Int) ≤ c.outboxBatchSize) ∧
    ((∀ i, i < (splitBatches c.buf c.outboxBatchSize).length → enqFail i = none) →
      (flushBuf c (some ierr) enqFail nameBase).ret = none ∧
      (flushBuf c (some ierr) enqFail nameBase).enqueued =
        splitBatches c.buf c.outboxBatchSize ∧
      ∃ d f b, (flushBuf c (some ierr) enqFail nameBase).log =
        [(c.buf.length, .queuedToOutbox d f b ierr)]) ∧
    (∀ k q, (∀ j, j < k → enqFail j = none) → enqFail k = some q →
      k < (splitBatches c.buf c.outboxBatchSize).length →
      (flushBuf c (some ierr) enqFail nameBase).ret = some (.enqueueErr q) ∧
      (flushBuf c (some ierr) enqFail nameBase).enqueued =
        (splitBatches c.buf c.outboxBatchSize).take k ∧
      (flushBuf c (some ierr) enqFail nameBase).log =
        [(c.buf.length, .enqueueFailed q ierr)]) := by
  have hbe : c.buf.isEmpty = false := by
    cases hb : c.buf with
    | nil => exact absurd hb hbuf
    | cons a l => rfl
  obtain ⟨hjoin, hlen⟩ := splitBatches_spec c.buf c.outboxBatchSize hsize
  refine ⟨hjoin, hlen, ?_, ?_⟩
  · intro hok
    obtain ⟨he, hchunks⟩ := enqLoop_all_ok enqFail nameBase
      (splitBatches c.buf c.outboxBatchSize) 0 ob 0
      (fun j hj => by simpa using hok j hj)
    simp only [flushBuf, hbe, Bool.false_eq_true, if_false, hob]
    refine ⟨?_, ?_, ?_⟩
    · simp [he]
    · simp [he, hchunks]
    · simp only [he]
      exact ⟨_, _, _, rfl⟩
  · intro k q hpre hfail hk
    obtain ⟨he, hchunks⟩ := enqLoop_first_fail enqFail nameBase
      (splitBatches c.buf c.outboxBatchSize) 0 k q ob 0
      (fun j hj => by simpa using hpre j hj) (by simpa using hfail) hk
    simp only [flushBuf, hbe, Bool.false_eq_true, if_false, hob]
    refine ⟨?_, ?_, ?_⟩ <;> simp [he, hchunks]

/-- Concrete writer used to witness C2: three buffered events, chunk size 2,
empty enabled outbox with a large cap. -/
def chWriterC2 : CHWriter :=
  { buf := [1, 1, 1]
    outboxBatchSize := 2
    outbox := some { maxBytes := 100, totalBytes := 0, files := [], seq := 0,
                     droppedEvents := 0 } }

theorem flushBuf_outbox_spec_witness :
    (flushBuf chWriterC2 (some 7) (fun _ => none) 10).ret = none ∧
    (flushBuf chWriterC2 (some 7) (fun _ => none) 10).enqueued =
      splitBatches chWriterC2.buf chWriterC2.outboxBatchSize := by
  have h := flushBuf_outbox_spec chWriterC2 7 (fun _ => none) 10
    { maxBytes := 100, totalBytes := 0, files := [], seq := 0, droppedEvents := 0 }
    (by decide) (by decide) (by decide)
  obtain ⟨hr, henq, -⟩ := h.2.2.1 (fun i _ => rfl)
  exact ⟨hr, henq⟩

/-! ## Outbox drainer (`clickHouseWriter.drainOutbox`) -/

/-- One observable step of the drain loop: an unreadable spool file dropped,
a spool file delivered and deleted, or a delivery failure (which ends the
call). -/
inductive DrainStep where
  | droppedUnreadable (name : Nat) (events : Nat)
  | delivered (name : Nat)
  | deliveryFailed (name : Nat)
  deriving Repr, DecidableEq

/-- The spool file a drain step touched. -/
def DrainStep.fileName : DrainStep → Nat
  | .droppedUnreadable n _ => n
  | .delivered n => n
  | .deliveryFailed n => n

/-- Whether a drain step is the delivery-failure step. -/
def DrainStep.isFail : DrainStep → Bool
  | .deliveryFailed _ => true
  | _ => false

/-- The `for i := 0; i < 10; i++` loop of `drainOutbox`, with `fuel` the
remaining iterations. `insertOk name` is the oracle for the `insertBatch`
HTTP call on the file with that name (attempted at most once per call);
an unreadable file is one whose `content` is `none` (`readBatchFile` fails).
Returns the outbox, `currentBackoff`, `nextRetryAt` and the step trace. -/
def drainGo (insertOk : Nat → Bool) (now retryBackoff retryMax : Int) :
    Nat → Outbox → Int → Option Int → Outbox × Int × Option Int × List DrainStep
  | 0, ob, backoff, nra => (ob, backoff, nra, [])
  | fuel + 1, ob, backoff, nra =>
    match ob.files with
    | [] => (ob, retryBackoff, none, [])
    | meta :: _ =>
      match meta.content with
      | none =>
        let r := drainGo insertOk now retryBackoff retryMax fuel
          (removeByName ob meta.name) backoff nra
        (r.1, r.2.1, r.2.2.1, .droppedUnreadable meta.name meta.events :: r.2.2.2)
      | some _ =>
        if insertOk meta.name then
          let r := drainGo insertOk now retryBackoff retryMax fuel
            (removeByName ob meta.name) backoff nra
          (r.1, r.2.1, r.2.2.1, .delivered meta.name :: r.2.2.2)
        else
          (ob, if backoff * 2 > retryMax then retryMax else backoff * 2,
            some (now + backoff), [.deliveryFailed meta.name])

/-- Drainer state carried by `clickHouseWriter` (`nextRetryAt = none` models
the zero `time.Time`). -/
structure Drainer where
  outbox : Option Outbox
  currentBackoff : Int
  retryBackoff : Int
  retryMax : Int
  nextRetryAt : Option Int
  deriving Repr, DecidableEq

/-- `clickHouseWriter.drainOutbox`: no-op without an outbox or while gated by
`nextRetryAt`; otherwise up to 10 loop iterations. -/
def drainOutbox (s : Drainer) (insertOk : Nat → Bool) (now : Int) :
    Drainer × List DrainStep :=
  match s.outbox with
  | none => (s, [])
  | some ob =>
    let gated := match s.nextRetryAt with
      | none => false
      | some t => decide (now < t)
    if gated then (s, [])
    else
      let r := drainGo insertOk now s.retryBackoff s.retryMax 10 ob
        s.currentBackoff s.nextRetryAt
      ({ s with outbox := some r.1, currentBackoff := r.2.1, nextRetryAt := r.2.2.1 },
        r.2.2.2)

/-- Removing the head file by its own name drops exactly the head and keeps
the dropped-events counter and cap. -/
theorem removeByName_head (o : Outbox) (meta : SpoolMeta) (rest : List SpoolMeta)
    (h : o.files = meta :: rest) :
    (removeByName o meta.name).files = rest ∧
    (removeByName o meta.name).droppedEvents = o.droppedEvents ∧
    (removeByName o meta.name).maxBytes = o.maxBytes := by
  simp [removeByName, h, removeFirst]

/-- Full characterization of the drain loop: at most `fuel` files touched,
oldest first; every touched file except a final failed one is removed; the
dropped-events counter is never changed; a delivery failure ends the call
recording `nextRetryAt = now + currentBackoff` and doubling the backoff up to
`retryMax`; without a failure the backoff resets exactly when the loop
observed an empty spool. -/
theorem drainGo_spec (insertOk : Nat → Bool) (now rb rm : Int) :
    ∀ (fuel : Nat) (ob : Outbox) (b : Int) (nra : Option Int),
    (drainGo insertOk now rb rm fuel ob b nra).2.2.2.length ≤ fuel ∧
    (drainGo insertOk now rb rm fuel ob b nra).2.2.2.map DrainStep.fileName =
      (ob.files.take (drainGo insertOk now rb rm fuel ob b nra).2.2.2.length).map
        SpoolMeta.name ∧
    (drainGo insertOk now rb rm fuel ob b nra).1.files =
      ob.files.drop
        (((drainGo insertOk now rb rm fuel ob b nra).2.2.2.filter
          (fun s => !s.isFail)).length) ∧
    (drainGo insertOk now rb rm fuel ob b nra).1.droppedEvents = ob.droppedEvents ∧
    (∀ s ∈ (drainGo insertOk now rb rm fuel ob b nra).2.2.2.dropLast,
      s.isFail = false) ∧
    ((∃ nm, (drainGo insertOk now rb rm fuel ob b nra).2.2.2.getLast? =
        some (.deliveryFailed nm)) →
      (drainGo insertOk now rb rm fuel ob b nra).2.1 =
        (if b * 2 > rm then rm else b * 2) ∧
      (drainGo insertOk now rb rm fuel ob b nra).2.2.1 = some (now + b)) ∧
    ((∀ s ∈ (drainGo insertOk now rb rm fuel ob b nra).2.2.2, s.isFail = false) →
      (drainGo insertOk now rb rm fuel ob b nra).2.2.2.length =
        min ob.files.length fuel ∧
      (ob.files.length < fuel →
        (drainGo insertOk now rb rm fuel ob b nra).2.1 = rb ∧
        (drainGo insertOk now rb rm fuel ob b nra).2.2.1 = none) ∧
      (fuel ≤ ob.files.length →
        (drainGo insertOk now rb rm fuel ob b nra).2.1 = b ∧
        (drainGo insertOk now rb rm fuel ob b nra).2.2.1 = nra)) := by
  intro fuel
  induction fuel with
  | zero =>
    intro ob b nra
    refine ⟨Nat.le_refl 0, by simp [drainGo], by simp [drainGo], by simp [drainGo],
      by simp [drainGo], by simp [drainGo], fun _ => ⟨by simp [drainGo], ?_, ?_⟩⟩
    · intro h; omega
    · intro _; exact ⟨rfl, rfl⟩
  | succ fuel ih =>
    intro ob b nra
    cases hf : ob.files with
    | nil =>
      have hgo : drainGo insertOk now rb rm (fuel + 1) ob b nra = (ob, rb, none, []) := by
        simp [drainGo, hf]
      rw [hgo]
      refine ⟨by simp, by simp, by simp [hf], rfl, by simp, by simp,
        fun _ => ⟨by simp, fun _ => ⟨rfl, rfl⟩, fun h => by simp at h⟩⟩
    | cons meta rest =>
      have hstep :
          ∀ (step : DrainStep), step.fileName = meta.name → step.isFail = false →
          drainGo insertOk now rb rm (fuel + 1) ob b nra =
            ((drainGo insertOk now rb rm fuel (removeByName ob meta.name) b nra).1,
             (drainGo insertOk now rb rm fuel (removeByName ob meta.name) b nra).2.1,
             (drainGo insertOk now rb rm fuel (removeByName ob meta.name) b nra).2.2.1,
             step ::
               (drainGo insertOk now rb rm fuel (removeByName ob meta.name) b nra).2.2.2) →
          (drainGo insertOk now rb rm (fuel + 1) ob b nra).2.2.2.length ≤ fuel + 1 ∧
          (drainGo insertOk now rb rm (fuel + 1) ob b nra).2.2.2.map DrainStep.fileName =
            ((meta :: rest).take
              (drainGo insertOk now rb rm (fuel + 1) ob b nra).2.2.2.length).map
              SpoolMeta.name ∧
          (drainGo insertOk now rb rm (fuel + 1) ob b nra).1.files =
            (meta :: rest).drop
              (((drainGo insertOk now rb rm (fuel + 1) ob b nra).2.2.2.filter
                (fun s => !s.isFail)).length) ∧
          (drainGo insertOk now rb rm (fuel + 1) ob b nra).1.droppedEvents =
            ob.droppedEvents ∧
          (∀ s ∈ (drainGo insertOk now rb rm (fuel + 1) ob b nra).2.2.2.dropLast,
            s.isFail = false) ∧
          ((∃ nm, (drainGo insertOk now rb rm (fuel + 1) ob b nra).2.2.2.getLast? =
              some (.deliveryFailed nm)) →
            (drainGo insertOk now rb rm (fuel + 1) ob b nra).2.1 =
              (if b * 2 > rm then rm else b * 2) ∧
            (drainGo insertOk now rb rm (fuel + 1) ob b nra).2.2.1 = some (now + b)) ∧
          ((∀ s ∈ (drainGo insertOk now rb rm (fuel + 1) ob b nra).2.2.2,
              s.isFail = false) →
            (drainGo insertOk now rb rm (fuel + 1) ob b nra).2.2.2.length =
              min (meta :: rest).length (fuel + 1) ∧
            ((meta :: rest).length < fuel + 1 →
              (drainGo insertOk now rb rm (fuel + 1) ob b nra).2.1 = rb ∧
              (drainGo insertOk now rb rm (fuel + 1) ob b nra).2.2.1 = none) ∧
            (fuel + 1 ≤ (meta :: rest).length →
              (drainGo insertOk now rb rm (fuel + 1) ob b nra).2.1 = b ∧
              (drainGo insertOk now rb rm (fuel + 1) ob b nra).2.2.1 = nra)) := by
        intro step hname hnf hgo
        obtain ⟨hA, hB, hC, hD, hE, hF, hG⟩ := ih (removeByName ob meta.name) b nra
        obtain ⟨hrf, hrd, -⟩ := removeByName_head ob meta rest hf
        rw [hgo]
        dsimp only
        refine ⟨?_, ?_, ?_, ?_, ?_, ?_, ?_⟩
        · simpa using Nat.succ_le_succ hA
        · simp [hname, hB, hrf]
        · simp [hnf, hC, hrf]
        · simpa [hrd] using hD
        · intro s hs
          rcases hcase : (drainGo insertOk now rb rm fuel (removeByName ob meta.name)
              b nra).2.2.2 with _ | ⟨t0, ts⟩
          · rw [hcase] at hs; simp at hs
          · rw [hcase] at hs
            simp only [List.dropLast_cons₂] at hs
            rcases List.mem_cons.mp hs with h | h
            · rw [h]; exact hnf
            · refine hE s ?_
              rw [hcase]
              rcases ts with _ | ⟨t1, ts'⟩
              · simp at h
              · simpa [List.dropLast_cons₂] using h
        · intro ⟨nm, hlast⟩
          rcases hcase : (drainGo insertOk now rb rm fuel (removeByName ob meta.name)
              b nra).2.2.2 with _ | ⟨t0, ts⟩
          · rw [hcase] at hlast
            have hstepEq : step = .deliveryFailed nm := by simpa using hlast
            rw [hstepEq] at hnf
            simp [DrainStep.isFail] at hnf
          · rw [hcase, List.getLast?_cons_cons] at hlast
            exact hF ⟨nm, by rw [hcase]; exact hlast⟩
        · intro hall
          have hall' : ∀ s ∈ (drainGo insertOk now rb rm fuel
              (removeByName ob meta.name) b nra).2.2.2, s.isFail = false :=
            fun s hs => hall s (List.mem_cons_of_mem _ hs)
          obtain ⟨hg1, hg2, hg3⟩ := hG hall'
          refine ⟨?_, ?_, ?_⟩
          · simp only [List.length_cons, hg1, hrf]
            omega
          · intro hlt
            refine hg2 ?_
            rw [hrf]
            simp only [List.length_cons] at hlt
            omega
          · intro hge
            refine hg3 ?_
            rw [hrf]
            simp only [List.length_cons] at hge
            omega
      cases hc : meta.content with
      | none =>
        refine hstep (.droppedUnreadable meta.name meta.events) rfl rfl ?_
        simp [drainGo, hf, hc]
      | some batch =>
        cases hio : insertOk meta.name with
        | true =>
          refine hstep (.delivered meta.name) rfl rfl ?_
          simp [drainGo, hf, hc, hio]
        | false =>
          have hgo : drainGo insertOk now rb rm (fuel + 1) ob b nra =
              (ob, if b * 2 > rm then rm else b * 2, some (now + b),
                [.deliveryFailed meta.name]) := by
            simp [drainGo, hf, hc, hio]
          rw [hgo]
          dsimp only
          refine ⟨by simp, by simp [DrainStep.fileName],
            by simp [DrainStep.isFail, hf], rfl, by simp, fun _ => ⟨rfl, rfl⟩, ?_⟩
          intro hall
          exfalso
          have := hall (.deliveryFailed meta.name) (by simp)
          simp [DrainStep.isFail] at this

/-- C3 (amended): a drain invocation with an enabled outbox and an open
retry gate touches at most 10 spool files, oldest first; only the last touched
file can be a delivery failure, and every other touched file (delivered or
unreadable) is removed; the drainer never changes the dropped-events counter;
on a delivery failure it records `next_retry_at = now + current_backoff` and
doubles the backoff up to `retry_max_backoff`; without a failure the backoff
is reset exactly when the spool was observed empty (fewer than 10 files), not
after each successful delivery. -/
theorem drain_outbox_spec (s : Drainer) (insertOk : Nat → Bool) (now : Int)
    (ob : Outbox)
    (hob : s.outbox = some ob)
    (hgate : s.nextRetryAt = none ∨ ∃ t, s.nextRetryAt = some t ∧ ¬ now < t) :
    (drainOutbox s insertOk now).2.length ≤ 10 ∧
    (drainOutbox s insertOk now).2.map DrainStep.fileName =
      (ob.files.take (drainOutbox s insertOk now).2.length).map SpoolMeta.name ∧
    (∃ obF, (drainOutbox s insertOk now).1.outbox = some obF ∧
      obF.files = ob.files.drop
        (((drainOutbox s insertOk now).2.filter (fun st => !st.isFail)).length) ∧
      obF.droppedEvents = ob.droppedEvents) ∧
    (∀ st ∈ (drainOutbox s insertOk now).2.dropLast, st.isFail = false) ∧
    ((∃ nm, (drainOutbox s insertOk now).2.getLast? = some (.deliveryFailed nm)) →
      (drainOutbox s insertOk now).1.currentBackoff =
        (if s.currentBackoff * 2 > s.retryMax then s.retryMax
          else s.currentBackoff * 2) ∧
      (drainOutbox s insertOk now).1.nextRetryAt = some (now + s.currentBackoff)) ∧
    ((∀ st ∈ (drainOutbox s insertOk now).2, st.isFail = false) →
      (drainOutbox s insertOk now).2.length = min ob.files.length 10 ∧
      (ob.files.length < 10 →
        (drainOutbox s insertOk now).1.currentBackoff = s.retryBackoff ∧
        (drainOutbox s insertOk now).1.nextRetryAt = none) ∧
      (10 ≤ ob.files.length →
        (drainOutbox s insertOk now).1.currentBackoff = s.currentBackoff ∧
        (drainOutbox s insertOk now).1.nextRetryAt = s.nextRetryAt)) := by
  have hrun : drainOutbox s insertOk now =
      ({ s with
          outbox := some (drainGo insertOk now s.retryBackoff s.retryMax 10 ob
            s.currentBackoff s.nextRetryAt).1
          currentBackoff := (drainGo insertOk now s.retryBackoff s.retryMax 10 ob
            s.currentBackoff s.nextRetryAt).2.1
          nextRetryAt := (drainGo insertOk now s.retryBackoff s.retryMax 10 ob
            s.currentBackoff s.nextRetryAt).2.2.1 },
        (drainGo insertOk now s.retryBackoff s.retryMax 10 ob
          s.currentBackoff s.nextRetryAt).2.2.2) := by
    rcases hgate with hg | ⟨t, hg, hlt⟩
    · simp [drainOutbox, hob, hg]
    · simp [drainOutbox, hob, hg, hlt]
  obtain ⟨hA, hB, hC, hD, hE, hF, hG⟩ := drainGo_spec insertOk now s.retryBackoff
    s.retryMax 10 ob s.currentBackoff s.nextRetryAt
  rw [hrun]
  exact ⟨hA, hB, ⟨_, rfl, hC, hD⟩, hE, hF, hG⟩

/-- Concrete drainer used to witness the amended C3: an unreadable file
followed by a deliverable one, open gate. -/
def outboxC3 : Outbox :=
  { maxBytes := 100
    totalBytes := 9
    files := [{ name := 1, size := 5, events := 3, content := none },
              { name := 2, size := 4, events := 2, content := some [1, 1] }]
    seq := 2
    droppedEvents := 0 }

def drainerC3 : Drainer :=
  { outbox := some outboxC3
    currentBackoff := 1
    retryBackoff := 1
    retryMax := 30
    nextRetryAt := none }

theorem drain_outbox_spec_witness :
    (drainerC3.outbox = some outboxC3 ∧
      (drainerC3.nextRetryAt = none ∨
        ∃ t, drainerC3.nextRetryAt = some t ∧ ¬ (100 : Int) < t)) ∧
    ((drainOutbox drainerC3 (fun _ => true) 100).2.length ≤ 10 ∧
      (drainOutbox drainerC3 (fun _ => true) 100).2.map DrainStep.fileName =
        (outboxC3.files.take
          (drainOutbox drainerC3 (fun _ => true) 100).2.length).map SpoolMeta.name ∧
      (∃ obF, (drainOutbox drainerC3 (fun _ => true) 100).1.outbox = some obF ∧
        obF.files = outboxC3.files.drop
          (((drainOutbox drainerC3 (fun _ => true) 100).2.filter
            (fun st => !st.isFail)).length) ∧
        obF.droppedEvents = outboxC3.droppedEvents) ∧
      (∀ st ∈ (drainOutbox drainerC3 (fun _ => true) 100).2.dropLast,
        st.isFail = false) ∧
      ((∃ nm, (drainOutbox drainerC3 (fun _ => true) 100).2.getLast? =
          some (.deliveryFailed nm)) →
        (drainOutbox drainerC3 (fun _ => true) 100).1.currentBackoff =
          (if drainerC3.currentBackoff * 2 > drainerC3.retryMax then drainerC3.retryMax
            else drainerC3.currentBackoff * 2) ∧
        (drainOutbox drainerC3 (fun _ => true) 100).1.nextRetryAt =
          some (100 + drainerC3.currentBackoff)) ∧
      ((∀ st ∈ (drainOutbox drainerC3 (fun _ => true) 100).2, st.isFail = false) →
        (drainOutbox drainerC3 (fun _ => true) 100).2.length =
          min outboxC3.files.length 10 ∧
        (outboxC3.files.length < 10 →
          (drainOutbox drainerC3 (fun _ => true) 100).1.currentBackoff =
            drainerC3.retryBackoff ∧
          (drainOutbox drainerC3 (fun _ => true) 100).1.nextRetryAt = none) ∧
        (10 ≤ outboxC3.files.length →
          (drainOutbox drainerC3 (fun _ => true) 100).1.currentBackoff =
            drainerC3.currentBackoff ∧
          (drainOutbox drainerC3 (fun _ => true) 100).1.nextRetryAt =
            drainerC3.nextRetryAt))) :=
  ⟨⟨rfl, Or.inl rfl⟩,
    drain_outbox_spec drainerC3 (fun _ => true) 100 outboxC3 rfl (Or.inl rfl)⟩

/-- Drainer holding a single unreadable 3-event spool file (counterexample
state for C3's dropped-counter clause). -/
def outboxC3cexA : Outbox :=
  { maxBytes := 100
    totalBytes := 5
    files := [{ name := 1, size := 5, events := 3, content := none }]
    seq := 1
    droppedEvents := 0 }

def drainerC3cexA : Drainer :=
  { outbox := some outboxC3cexA
    currentBackoff := 8
    retryBackoff := 1
    retryMax := 30
    nextRetryAt := none }

/-- Drainer holding a deliverable file then a failing one, with the backoff
already grown to 8 (counterexample state for C3's reset-on-success clause). -/
def outboxC3cexB : Outbox :=
  { maxBytes := 100
    totalBytes := 8
    files := [{ name := 1, size := 4, events := 2, content := some [1, 1] },
              { name := 2, size := 4, events := 2, content := some [1, 1] }]
    seq := 2
    droppedEvents := 0 }

def drainerC3cexB : Drainer :=
  { outbox := some outboxC3cexB
    currentBackoff := 8
    retryBackoff := 1
    retryMax := 30
    nextRetryAt := none }

/-- C3 counterexample: (a) the drainer deletes the unreadable 3-event spool
file but leaves `droppedEvents` at 0, while the claim requires
`dropped_events_total` to increase by 3; (b) after a successful delivery the
backoff is not reset: the subsequent failure records
`next_retry_at = now + 8` and doubles the backoff to 16, not the
reset-then-doubled values the claim implies (`now + 1`, backoff 2). -/
theorem drain_outbox_cex :
    ((drainOutbox drainerC3cexA (fun _ => true) 100).2 =
        [.droppedUnreadable 1 3] ∧
      (drainOutbox drainerC3cexA (fun _ => true) 100).1.outbox =
        some { maxBytes := 100, totalBytes := 0, files := [], seq := 1,
               droppedEvents := 0 }) ∧
    ((drainOutbox drainerC3cexB (fun n => n == 1) 100).2 =
        [.delivered 1, .deliveryFailed 2] ∧
      (drainOutbox drainerC3cexB (fun n => n == 1) 100).1.currentBackoff = 16 ∧
      (drainOutbox drainerC3cexB (fun n => n == 1) 100).1.nextRetryAt =
        some 108) := by
  refine ⟨⟨?_, ?_⟩, ?_, ?_, ?_⟩ <;> rfl

/-! ## Per-sensor rate limiter (`internal/ratelimit/ratelimit.go`) -/

/-- Point update of a Go map modelled as a function (`m[k] = v`). -/
def updFn (m : String → α) (s : String) (v : α) : String → α :=
  fun t => if t = s then v else m t

@[simp] theorem updFn_same (m : String → α) (s : String) (v : α) :
    updFn m s v s = v := by
  simp [updFn]

theorem updFn_other (m : String → α) (s t : String) (v : α) (h : t ≠ s) :
    updFn m s v t = m t := by
  simp [updFn, h]

/-- `PerSensorLimiter` state: the configured rps and the two per-sensor maps
(`lastTick`: second bucket of the last call, `count`: calls in that second),
modelled as functions with Go-map zero-value defaults. -/
structure Limiter where
  rps : Int
  lastTick : String → Option Int
  count : String → Nat

/-- `NewPerSensorLimiter`: `rps = 0` becomes the default 50; negative `rps`
becomes 0 (which disables the limiter in `Allow`). -/
def newPerSensorLimiter (rps : Int) : Limiter :=
  let rps1 := if rps = 0 then 50 else rps
  let rps2 := if rps1 < 0 then 0 else rps1
  { rps := rps2, lastTick := fun _ => none, count := fun _ => 0 }

/-- `PerSensorLimiter.Allow` at wall-clock second `now`: always true when
`rps <= 0`; otherwise reset the sensor's window when its bucket differs from
`now`, deny at the cap, else count and allow. -/
def allow (p : Limiter) (sensorID : String) (now : Int) : Limiter × Bool :=
  if p.rps ≤ 0 then (p, true)
  else
    let p1 :=
      match p.lastTick sensorID with
      | some tick =>
        if tick = now then p
        else { p with lastTick := updFn p.lastTick sensorID (some now)
                      count := updFn p.count sensorID 0 }
      | none =>
        { p with lastTick := updFn p.lastTick sensorID (some now)
                 count := updFn p.count sensorID 0 }
    if (p1.count sensorID : Int) ≥ p1.rps then (p1, false)
    else ({ p1 with count := updFn p1.count sensorID (p1.count sensorID + 1) }, true)

/-- Run a sequence of `Allow` calls (all at the same wall-clock second),
returning the final limiter and the list of results in call order. -/
def runAllow (p : Limiter) (calls : List String) (now : Int) :
    Limiter × List Bool :=
  match calls with
  | [] => (p, [])
  | s :: rest =>
    let r := allow p s now
    let r' := runAllow r.1 rest now
    (r'.1, r.2 :: r'.2)

/-- Invariant tying a limiter state to the calls already made within the
second `now`, starting from a fresh limiter. -/
def LimInv (N : Int) (now : Int) (prev : List String) (p : Limiter) : Prop :=
  p.rps = N ∧
  ∀ s, (p.count s : Int) = min (prev.count s : Int) N ∧
    p.lastTick s = (if prev.count s = 0 then none else some now)

theorem allow_step (N : Int) (hN : 0 < N) (now : Int) (prev : List String)
    (p : Limiter) (hinv : LimInv N now prev p) (s : String) :
    (allow p s now).2 = decide ((prev.count s : Int) < N) ∧
    LimInv N now (prev ++ [s]) (allow p s now).1 := by
  obtain ⟨hrps, hmaps⟩ := hinv
  have hnle : ¬ p.rps ≤ 0 := by omega
  obtain ⟨hcnt, htick⟩ := hmaps s
  by_cases hz : prev.count s = 0
  · -- first call for s in this second: the none branch resets the window
    have htick' : p.lastTick s = none := by rw [htick, if_pos hz]
    have hred : allow p s now =
        ({ p with lastTick := updFn p.lastTick s (some now)
                  count := updFn (updFn p.count s 0) s (updFn p.count s 0 s + 1) },
          true) := by
      simp [allow, hnle, htick']
    rw [hred]
    refine ⟨by simp [hz, hN], by simpa using hrps, fun t => ?_⟩
    by_cases hts : t = s
    · subst hts
      refine ⟨?_, ?_⟩
      · show ((updFn (updFn p.count t 0) t (updFn p.count t 0 t + 1) t : Nat) : Int) =
          ((prev ++ [t]).count t : Int) ⊓ N
        simp [updFn, List.count_append, hz]
        omega
      · show updFn p.lastTick t (some now) t =
          (if (prev ++ [t]).count t = 0 then none else some now)
        simp [updFn, List.count_append]
    · refine ⟨?_, ?_⟩
      · show ((updFn (updFn p.count s 0) s (updFn p.count s 0 s + 1) t : Nat) : Int) =
          ((prev ++ [s]).count t : Int) ⊓ N
        simpa [updFn, hts, List.count_append] using (hmaps t).1
      · show updFn p.lastTick s (some now) t =
          (if (prev ++ [s]).count t = 0 then none else some now)
        simpa [updFn, hts, List.count_append] using (hmaps t).2
  · -- s already counted this second: the bucket matches `now`, no reset
    have htick' : p.lastTick s = some now := by rw [htick, if_neg hz]
    by_cases hge : (prev.count s : Int) ≥ N
    · have hc : ((p.count s : Nat) : Int) ≥ p.rps := by rw [hcnt, hrps]; omega
      have hred : allow p s now = (p, false) := by
        simp [allow, hnle, htick', hc]
      rw [hred]
      have hnlt : ¬ ((prev.count s : Int) < N) := by omega
      refine ⟨by simp [hnlt], hrps, fun t => ?_⟩
      by_cases hts : t = s
      · subst hts
        refine ⟨?_, ?_⟩
        · show ((p.count t : Nat) : Int) = ((prev ++ [t]).count t : Int) ⊓ N
          rw [hcnt]
          simp [List.count_append]
          omega
        · show p.lastTick t = (if (prev ++ [t]).count t = 0 then none else some now)
          rw [htick']
          simp [List.count_append]
      · refine ⟨?_, ?_⟩
        · simpa [List.count_append, hts] using (hmaps t).1
        · simpa [List.count_append, hts] using (hmaps t).2
    · have hc : ¬ ((p.count s : Nat) : Int) ≥ p.rps := by rw [hcnt, hrps]; omega
      have hred : allow p s now =
          ({ p with count := updFn p.count s (p.count s + 1) }, true) := by
        simp [allow, hnle, htick', hc]
      rw [hred]
      have hlt : (prev.count s : Int) < N := by omega
      refine ⟨by simp [hlt], by simpa using hrps, fun t => ?_⟩
      by_cases hts : t = s
      · subst hts
        refine ⟨?_, ?_⟩
        · show ((updFn p.count t (p.count t + 1) t : Nat) : Int) =
            ((prev ++ [t]).count t : Int) ⊓ N
          rw [updFn_same, Nat.cast_add, hcnt]
          simp [List.count_append]
          omega
        · show p.lastTick t = (if (prev ++ [t]).count t = 0 then none else some now)
          rw [htick']
          simp [List.count_append]
      · refine ⟨?_, ?_⟩
        · show ((updFn p.count s (p.count s + 1) t : Nat) : Int) =
            ((prev ++ [s]).count t : Int) ⊓ N
          simpa [updFn, hts, List.count_append] using (hmaps t).1
        · simpa [List.count_append, hts] using (hmaps t).2

theorem runAllow_spec (N : Int) (hN : 0 < N) (now : Int) :
    ∀ (calls : List String) (prev : List String) (p : Limiter),
    LimInv N now prev p →
    (runAllow p calls now).2.length = calls.length ∧
    ∀ i (h : i < calls.length),
      (runAllow p calls now).2.getD i false =
        decide (((prev ++ calls.take i).count (calls.get ⟨i, h⟩) : Int) < N) := by
  intro calls
  induction calls with
  | nil =>
    intro prev p _
    exact ⟨rfl, fun i h => absurd h (by simp)⟩
  | cons c rest ih =>
    intro prev p hinv
    obtain ⟨hres, hinv'⟩ := allow_step N hN now prev p hinv c
    obtain ⟨hlen, hrest⟩ := ih (prev ++ [c]) (allow p c now).1 hinv'
    constructor
    · simp [runAllow, hlen]
    · intro i h
      cases i with
      | zero =>
        simpa [runAllow] using hres
      | succ j =>
        have hj : j < rest.length := by simpa using Nat.lt_of_succ_lt_succ h
        have := hrest j hj
        simpa [runAllow, List.append_assoc] using this

/-- C4: a limiter built with `rps = 0` gets the default limit 50; with
`rps < 0` the stored limit is 0 and every `Allow` call returns true leaving
the state unchanged; with `rps = N > 0`, in any same-second call sequence the
i-th call for a sensor is allowed exactly when that sensor has made fewer
than N earlier calls — so exactly N calls per sensor succeed, the N+1-th is
denied, and distinct sensor ids are counted independently. -/
theorem ratelimit_spec (N : Int) (calls : List String) (now : Int) :
    (newPerSensorLimiter 0).rps = 50 ∧
    (N < 0 → (newPerSensorLimiter N).rps = 0) ∧
    (∀ (p : Limiter) (s : String) (t : Int), p.rps ≤ 0 → allow p s t = (p, true)) ∧
    (0 < N →
      (runAllow (newPerSensorLimiter N) calls now).2.length = calls.length ∧
      ∀ i (h : i < calls.length),
        (runAllow (newPerSensorLimiter N) calls now).2.getD i false =
          decide (((calls.take i).count (calls.get ⟨i, h⟩) : Int) < N)) := by
  refine ⟨rfl, ?_, ?_, ?_⟩
  · intro h
    simp [newPerSensorLimiter, if_neg (show ¬ N = 0 by omega), if_pos h]
  · intro p s t h
    simp [allow, h]
  · intro hN
    have hinv : LimInv N now [] (newPerSensorLimiter N) := by
      refine ⟨?_, fun s => ⟨?_, ?_⟩⟩
      · simp [newPerSensorLimiter, if_neg (show ¬ N = 0 by omega),
          if_neg (show ¬ N < 0 by omega)]
      · simp [newPerSensorLimiter]
        omega
      · simp [newPerSensorLimiter]
    obtain ⟨hlen, hres⟩ := runAllow_spec N hN now calls [] (newPerSensorLimiter N) hinv
    exact ⟨hlen, fun i h => by simpa using hres i h⟩

/-- Witness for C4 at `N = 2` and calls a, b, a, a in one second: the fourth
call (sensor a's third) is denied. -/
theorem ratelimit_spec_witness :
    ((0 : Int) < 2) ∧
    (runAllow (newPerSensorLimiter 2) ["a", "b", "a", "a"] 5).2.getD 3 false = false := by
  have h := (ratelimit_spec 2 ["a", "b", "a", "a"] 5).2.2.2 (by decide)
  refine ⟨by decide, ?_⟩
  have h3 := h.2 3 (by decide)
  rw [h3]
  decide

/-! ## Credential validator (`internal/auth`) -/

/-- `Validator.Validate` over the stored `(token, sensorID)` entries: empty
token short-circuits to ∅; otherwise the first entry whose token is
byte-for-byte equal to the candidate wins (`subtle.ConstantTimeCompare`
returns 1 exactly on equal byte strings). -/
def validate (entries : List (String × String)) (token : String) : String :=
  if token = "" then ""
  else
    match entries.find? (fun e => e.1 == token) with
    | some e => e.2
    | none => ""

theorem validate_of_not_mem (entries : List (String × String)) (tok : String)
    (h : ∀ e ∈ entries, e.1 ≠ tok) : validate entries tok = "" := by
  by_cases he : tok = ""
  · simp [validate, he]
  · simp only [validate, if_neg he]
    have : entries.find? (fun e => e.1 == tok) = none := by
      rw [List.find?_eq_none]
      intro e hme
      simpa using h e hme
    rw [this]

theorem validate_of_mem (entries : List (String × String)) (tok : String)
    (hne : tok ≠ "") (h : ∃ e ∈ entries, e.1 = tok) :
    ∃ e ∈ entries, e.1 = tok ∧ validate entries tok = e.2 := by
  obtain ⟨e0, he0, heq0⟩ := h
  have hsome : (entries.find? (fun e => e.1 == tok)).isSome := by
    rw [List.find?_isSome]
    exact ⟨e0, he0, by simpa using heq0⟩
  obtain ⟨e, he⟩ := Option.isSome_iff_exists.mp hsome
  refine ⟨e, List.mem_of_find?_eq_some he, ?_, ?_⟩
  · simpa using List.find?_some he
  · simp [validate, if_neg hne, he]

/-- C5 counterexample: with stored tokens "ab" and "b", the token "b" is a
proper suffix (hence substring) of the stored token "ab", yet `validate`
returns the sensor id of the entry "b" rather than ∅. -/
theorem validator_substring_cex :
    ("b".data <:+ "ab".data ∧ "b".data ≠ "ab".data) ∧
    validate [("ab", "s1"), ("b", "s2")] "b" = "s2" := by
  refine ⟨⟨?_, ?_⟩, ?_⟩
  · decide
  · decide
  · rfl

/-- C5 (amended): `validate` returns ∅ for the empty token; when some stored
entry's token equals the queried token it returns the sensor id of such an
entry (the first match); it returns ∅ whenever no stored token equals the
query — in particular for every token that is a proper prefix, proper suffix,
or substring of a stored token and is not itself byte-for-byte equal to any
stored token. -/
theorem validator_spec (entries : List (String × String)) (tok : String) :
    validate entries "" = "" ∧
    (tok ≠ "" → (∃ e ∈ entries, e.1 = tok) →
      ∃ e ∈ entries, e.1 = tok ∧ validate entries tok = e.2) ∧
    ((∀ e ∈ entries, e.1 ≠ tok) → validate entries tok = "") ∧
    ((∃ e ∈ entries, tok.data ≠ e.1.data ∧
        (tok.data <+: e.1.data ∨ tok.data <:+ e.1.data ∨ tok.data <:+: e.1.data)) →
      (∀ e ∈ entries, e.1 ≠ tok) → validate entries tok = "") := by
  refine ⟨by simp [validate], fun hne h => validate_of_mem entries tok hne h,
    fun h => validate_of_not_mem entries tok h,
    fun _ h => validate_of_not_mem entries tok h⟩

/-- Witness for the amended C5: "secret" is a proper prefix of the stored
token "secret-token-1" and not itself stored, so validation returns ∅. -/
theorem validator_spec_witness :
    ((∃ e ∈ [("secret-token-1", "s1")], "secret".data ≠ e.1.data ∧
        ("secret".data <+: e.1.data ∨ "secret".data <:+ e.1.data ∨
          "secret".data <:+: e.1.data)) ∧
      (∀ e ∈ [("secret-token-1", "s1")], e.1 ≠ "secret")) ∧
    validate [("secret-token-1", "s1")] "secret" = "" :=
  ⟨⟨by decide, by decide⟩,
    (validator_spec [("secret-token-1", "s1")] "secret").2.2.2 (by decide) (by decide)⟩

/-! ## Geolocation enrichment (`setGeo` in the enricher) -/

/-- Values stored in the `source.geo` object: strings, or the
`{lat, lon}` location object. Coordinates (Go `float64`) are modelled as
rationals; the only operation the code performs on them is the exact
comparison with zero. -/
inductive GeoVal where
  | str (s : String)
  | loc (lat lon : Rat)
  deriving Repr, DecidableEq

/-- Assignment into the geo JSON object (`geo[k] = v`). -/
def mapSet (m : List (String × GeoVal)) (k : String) (v : GeoVal) :
    List (String × GeoVal) :=
  match m with
  | [] => [(k, v)]
  | (k', v') :: rest => if k' = k then (k, v) :: rest else (k', v') :: mapSet rest k v

/-- Lookup in the geo JSON object. -/
def mapGet (m : List (String × GeoVal)) (k : String) : Option GeoVal :=
  match m with
  | [] => none
  | (k', v') :: rest => if k' = k then some v' else mapGet rest k

theorem mapGet_mapSet_same (m : List (String × GeoVal)) (k : String) (v : GeoVal) :
    mapGet (mapSet m k v) k = some v := by
  induction m with
  | nil => simp [mapSet, mapGet]
  | cons e rest ih =>
    obtain ⟨k', v'⟩ := e
    by_cases h : k' = k
    · simp [mapSet, mapGet, h]
    · simp [mapSet, mapGet, h, ih]

theorem mapGet_mapSet_other (m : List (String × GeoVal)) (k : String) (v : GeoVal)
    (q : String) (h : q ≠ k) : mapGet (mapSet m k v) q = mapGet m q := by
  induction m with
  | nil => simp [mapSet, mapGet, Ne.symm h]
  | cons e rest ih =>
    obtain ⟨k', v'⟩ := e
    by_cases hk : k' = k
    · subst hk
      simp [mapSet, mapGet, Ne.symm h]
    · simp only [mapSet, if_neg hk, mapGet]
      by_cases hq : k' = q
      · simp [hq]
      · simp [hq, ih]

/-- One subdivision record: its localized-names map (`Names`). -/
structure Subdivision where
  names : List (String × String)
  deriving Repr, DecidableEq

/-- The city-level names map; `none` models a nil Go map
(`city.City.Names != nil` fails). -/
structure CityNames where
  names : Option (List (String × String))
  deriving Repr, DecidableEq

structure GeoCountry where
  isoCode : String
  deriving Repr, DecidableEq

structure GeoLocation where
  latitude : Rat
  longitude : Rat
  deriving Repr, DecidableEq

/-- The fields of `geoip2.City` that `setGeo` reads. -/
structure CityRecord where
  country : GeoCountry
  subdivisions : List Subdivision
  city : CityNames
  location : GeoLocation
  deriving Repr, DecidableEq

/-- `setGeo(geo, city)`: the four conditional assignments, in source order.
A Go map index of a missing key (`Names["en"]` in the region branch) yields
the zero value "", hence the `getD ""`. -/
def setGeo (geo : List (String × GeoVal)) (c : CityRecord) :
    List (String × GeoVal) :=
  let geo1 := if c.country.isoCode.length = 2
    then mapSet geo "country_iso_code" (.str c.country.isoCode) else geo
  let geo2 := match c.subdivisions with
    | [] => geo1
    | sd :: _ => mapSet geo1 "region_name" (.str ((sd.names.lookup "en").getD ""))
  let geo3 := match c.city.names with
    | none => geo2
    | some ns =>
      match ns.lookup "en" with
      | some name => mapSet geo2 "city_name" (.str name)
      | none => geo2
  if c.location.latitude ≠ 0 ∨ c.location.longitude ≠ 0 then
    mapSet geo3 "location" (.loc c.location.latitude c.location.longitude)
  else geo3

/-- Concrete city record whose only subdivision has no English name. -/
def cityC7cex : CityRecord :=
  { country := { isoCode := "NL" }
    subdivisions := [{ names := [("nl", "Zuid-Holland")] }]
    city := { names := none }
    location := { latitude := 0, longitude := 0 } }

/-- C7 counterexample: the first subdivision has no English name, yet the
enricher still sets `region_name` (to the empty string), contradicting the
claim that `region_name` is set only when the English name is present. -/
theorem setGeo_region_cex :
    (({ names := [("nl", "Zuid-Holland")] } : Subdivision).names.lookup "en" = none) ∧
    mapGet (setGeo [] cityC7cex) "region_name" = some (.str "") := by
  exact ⟨rfl, rfl⟩

/-- C7 (amended): starting from an empty geo object, `setGeo` sets
`country_iso_code` exactly when the ISO code has exactly two characters; sets
`region_name` exactly when at least one subdivision exists, to the first
subdivision's English name with the empty string standing in when that name
is absent; sets `city_name` exactly when the city names map is non-nil and
has an English entry; and sets `location` exactly when at least one
coordinate is non-zero ((0,0) omits the field). -/
theorem setGeo_spec (c : CityRecord) :
    (mapGet (setGeo [] c) "country_iso_code" =
      if c.country.isoCode.length = 2 then some (.str c.country.isoCode) else none) ∧
    (mapGet (setGeo [] c) "region_name" =
      match c.subdivisions with
      | [] => none
      | sd :: _ => some (.str ((sd.names.lookup "en").getD ""))) ∧
    (mapGet (setGeo [] c) "city_name" =
      match c.city.names with
      | none => none
      | some ns =>
        match ns.lookup "en" with
        | some name => some (.str name)
        | none => none) ∧
    (mapGet (setGeo [] c) "location" =
      if c.location.latitude ≠ 0 ∨ c.location.longitude ≠ 0 then
        some (.loc c.location.latitude c.location.longitude) else none) := by
  refine ⟨?_, ?_, ?_, ?_⟩ <;>
  · simp only [setGeo]
    repeat' split
    all_goals simp_all [mapGet, mapSet]

/-! ## Ingest HTTP handler (`internal/ingest/ingest.go`, `metrics.go`) -/

/-- `strings.ToLower` restricted to ASCII letters (the tokens and headers the
handler manipulates are ASCII). -/
def strToLower (s : String) : String := ⟨s.data.map Char.toLower⟩

/-- `strings.HasPrefix`. -/
def strHasPrefix (s pre : String) : Bool := pre.data.isPrefixOf s.data

/-- `strings.TrimPrefix`: drop the prefix when present, else return the
string unchanged. -/
def goTrimPrefix (s pre : String) : String :=
  if pre.data.isPrefixOf s.data then ⟨s.data.drop pre.data.length⟩ else s

/-- The ASCII whitespace class of `strings.TrimSpace` (space, tab, newline,
vertical tab, form feed, carriage return). -/
def isSpaceChar (c : Char) : Bool :=
  (c == ' ') || (c == '\t') || (c == '\n') || (c == '\r') ||
    (c == Char.ofNat 11) || (c == Char.ofNat 12)

/-- `strings.TrimSpace`. -/
def goTrimSpace (s : String) : String :=
  ⟨((s.data.dropWhile isSpaceChar).reverse.dropWhile isSpaceChar).reverse⟩

/-- `statusToString` from `metrics.go`. -/
def statusToString (code : Nat) : String :=
  match code with
  | 200 => "200"
  | 204 => "204"
  | 400 => "400"
  | 401 => "401"
  | 413 => "413"
  | 429 => "429"
  | 500 => "500"
  | 503 => "503"
  | _ => "other"

/-- The request body as the handler's read-and-parse stage classifies it:
`tooLarge` = `MaxBytesReader` tripped; `readErr` = other read error;
`notArray` = trimmed body empty or not starting with a bracket; `badJson` =
`json.Unmarshal` error; `nullArray` = unmarshal produced a nil slice;
`events` = parsed array, each element `none` for a JSON null or `some n` for
an object whose re-marshalled size is `n` bytes. -/
inductive BodyParse where
  | tooLarge
  | readErr
  | notArray
  | badJson
  | nullArray
  | events (evs : List (Option Nat))
  deriving Repr, DecidableEq

structure Request where
  method : String
  contentType : String
  authz : String
  xSpipID : String
  body : BodyParse
  deriving Repr, DecidableEq

/-- Handler configuration: the validator's entries, the batch/event limits,
and the outcome oracle for `ProcessBatch`. -/
structure HandlerCfg where
  tokens : List (String × String)
  maxEvents : Nat
  maxEventBytes : Int
  processOk : Bool
  deriving Repr, DecidableEq

/-- Observable side effects of one request, in order: metric increments and
the `ProcessBatch` invocation. -/
inductive TraceEntry where
  | incRequests (sensorID : String) (status : String)
  | addEvents (sensorID : String) (n : Nat)
  | processBatch (sensorID : String) (events : List (Option Nat))
  deriving Repr, DecidableEq

/-- The sensor a trace entry is attributed to. -/
def TraceEntry.sensor : TraceEntry → String
  | .incRequests s _ => s
  | .addEvents s _ => s
  | .processBatch s _ => s

structure Response where
  status : Nat
  errSlug : Option String
  retryAfter : Option String
  deriving Repr, DecidableEq

/-- Error response helper (`respondErr`). -/
def respond (code : Nat) (slug : String) : Response :=
  { status := code, errSlug := some slug, retryAfter := none }

/-- The per-element loop of the handler: first `nil` element → 400
`invalid_request`; first element whose re-marshalled size exceeds
`max_event_bytes` → 413 `event_too_large`; otherwise no early exit. -/
def scanEvents (maxEventBytes : Int) : List (Option Nat) → Option (Nat × String)
  | [] => none
  | none :: _ => some (400, "invalid_request")
  | some sz :: rest =>
    if (sz : Int) > maxEventBytes then some (413, "event_too_large")
    else scanEvents maxEventBytes rest

/-- Steps 6–13 of the handler, after the sensor id has been resolved:
rate limit, body classification, batch-length check, per-element checks,
metrics, `ProcessBatch`, final status. -/
def afterAuth (cfg : HandlerCfg) (lim : Limiter) (now : Int) (sid : String)
    (body : BodyParse) : Response × Limiter × List TraceEntry :=
  let r := allow lim sid now
  if r.2 = false then
    ({ status := 429, errSlug := some "rate_limit_exceeded", retryAfter := some "1" },
      r.1, [.incRequests sid (statusToString 429)])
  else
    match body with
    | .tooLarge =>
      (respond 413 "payload_too_large", r.1, [.incRequests sid (statusToString 413)])
    | .readErr =>
      (respond 400 "invalid_request", r.1, [.incRequests sid (statusToString 400)])
    | .notArray =>
      (respond 400 "invalid_request", r.1, [.incRequests sid (statusToString 400)])
    | .badJson =>
      (respond 400 "invalid_request", r.1, [.incRequests sid (statusToString 400)])
    | .nullArray =>
      (respond 400 "invalid_request", r.1, [.incRequests sid (statusToString 400)])
    | .events evs =>
      if evs.length > cfg.maxEvents then
        (respond 413 "batch_too_large", r.1, [.incRequests sid (statusToString 413)])
      else
        match scanEvents cfg.maxEventBytes evs with
        | some cs =>
          (respond cs.1 cs.2, r.1, [.incRequests sid (statusToString cs.1)])
        | none =>
          if cfg.processOk then
            ({ status := 204, errSlug := none, retryAfter := none }, r.1,
              [.incRequests sid (statusToString 200),
               .addEvents sid evs.length,
               .processBatch sid evs])
          else
            (respond 500 "internal_error", r.1,
              [.incRequests sid (statusToString 200),
               .addEvents sid evs.length,
               .processBatch sid evs,
               .incRequests sid (statusToString 500)])

/-- `Handler.ServeHTTP`: steps 1–5 (method, content type, bearer-prefix
check, token extraction and validation, `X-Spip-ID` match), then
`afterAuth`. -/
def serveHTTP (cfg : HandlerCfg) (lim : Limiter) (now : Int) (req : Request) :
    Response × Limiter × List TraceEntry :=
  if req.method ≠ "POST" then (respond 405 "method_not_allowed", lim, [])
  else if req.contentType ≠ "application/json" then
    (respond 415 "invalid_content_type", lim, [])
  else if req.authz = "" ∨ strHasPrefix (strToLower req.authz) "bearer " = false then
    (respond 401 "unauthorized", lim, [.incRequests "unknown" (statusToString 401)])
  else
    let token0 := goTrimSpace (goTrimPrefix req.authz "Bearer")
    let token := goTrimPrefix token0 "bearer "
    let sensorID := validate cfg.tokens token
    if sensorID = "" then
      (respond 401 "unauthorized", lim, [.incRequests "unknown" (statusToString 401)])
    else if req.xSpipID ≠ "" ∧ req.xSpipID ≠ sensorID then
      (respond 401 "unauthorized", lim, [])
    else
      let headerSensorID := if req.xSpipID = "" then sensorID else req.xSpipID
      afterAuth cfg lim now headerSensorID req.body

theorem isPrefixOf_append_self : ∀ (l k : List Char), l.isPrefixOf (l ++ k) = true := by
  intro l k
  induction l with
  | nil => simp
  | cons c cs ih => simp [List.isPrefixOf, ih]

theorem goTrimPrefix_append (p s : String) : goTrimPrefix (p ++ s) p = s := by
  obtain ⟨pl⟩ := p
  obtain ⟨sl⟩ := s
  show goTrimPrefix ⟨pl ++ sl⟩ ⟨pl⟩ = ⟨sl⟩
  simp [goTrimPrefix, isPrefixOf_append_self]

theorem goTrimSpace_no_trim (l : List Char)
    (h1 : l.dropWhile isSpaceChar = l)
    (h2 : l.reverse.dropWhile isSpaceChar = l.reverse) :
    goTrimSpace ⟨l⟩ = ⟨l⟩ := by
  simp [goTrimSpace, h1, h2]

theorem dropWhile_head_false (c : Char) (l : List Char)
    (h : (c :: l).dropWhile isSpaceChar = c :: l) : isSpaceChar c = false := by
  cases hc : isSpaceChar c with
  | false => rfl
  | true =>
    exfalso
    rw [List.dropWhile_cons, if_pos hc] at h
    have hlen := (List.dropWhile_sublist (l := l) isSpaceChar).length_le
    rw [h] at hlen
    simp at hlen

/-- Reduction of the handler's authorization steps: for a request carrying a
stored token `t` (no surrounding whitespace, not starting with the bytes of
`bearer` followed by a space) under either the `Bearer ` or the `bearer `
prefix, with a matching or absent `X-Spip-ID`, the handler resolves the
sensor id and proceeds to the post-authorization stage. -/
theorem serveHTTP_auth_reduce (cfg : HandlerCfg) (lim : Limiter) (now : Int)
    (t sid : String) (req : Request)
    (hm : req.method = "POST")
    (hct : req.contentType = "application/json")
    (hauth : req.authz = "Bearer " ++ t ∨ req.authz = "bearer " ++ t)
    (htok : validate cfg.tokens t = sid)
    (hsid : sid ≠ "")
    (ht1 : t.data.dropWhile isSpaceChar = t.data)
    (ht2 : t.data.reverse.dropWhile isSpaceChar = t.data.reverse)
    (ht3 : "bearer ".data.isPrefixOf t.data = false)
    (hx : req.xSpipID = "" ∨ req.xSpipID = sid) :
    serveHTTP cfg lim now req = afterAuth cfg lim now sid req.body := by
  have htne : t ≠ "" := by
    intro h
    subst h
    simp [validate] at htok
    exact hsid htok.symm
  have htlne : t.data ≠ [] := by
    intro h
    apply htne
    obtain ⟨tl⟩ := t
    simp at h
    subst h
    rfl
  obtain ⟨tl⟩ := t
  have htlne' : tl ≠ [] := by simpa using htlne
  -- the extracted token equals t under either prefix capitalization
  have hextract : goTrimPrefix (goTrimSpace (goTrimPrefix req.authz "Bearer"))
      "bearer " = ⟨tl⟩ := by
    rcases hauth with hA | hA
    · rw [hA]
      have hsplit : ("Bearer " ++ (⟨tl⟩ : String)) =
          "Bearer" ++ (⟨' ' :: tl⟩ : String) := by
        show String.mk ("Bearer ".data ++ tl) = String.mk ("Bearer".data ++ (' ' :: tl))
        rfl
      rw [hsplit, goTrimPrefix_append]
      have hts : goTrimSpace ⟨' ' :: tl⟩ = ⟨tl⟩ := by
        have hsp : isSpaceChar ' ' = true := by decide
        simp only [goTrimSpace, List.dropWhile_cons, hsp, if_true]
        simp [ht1, ht2]
      rw [hts]
      simp [goTrimPrefix, ht3]
    · rw [hA]
      have hup : goTrimPrefix ("bearer " ++ (⟨tl⟩ : String)) "Bearer" =
          "bearer " ++ (⟨tl⟩ : String) := by
        have hBb : ("Bearer".data.isPrefixOf ("bearer " ++ (⟨tl⟩ : String)).data) = false := by
          show ("Bearer".data.isPrefixOf ('b' :: ("earer ".data ++ tl))) = false
          have hcc : ('B' == 'b') = false := by decide
          simp [List.isPrefixOf, hcc]
        simp only [goTrimPrefix, hBb, Bool.false_eq_true, if_false]
      rw [hup]
      have hts : goTrimSpace ("bearer " ++ (⟨tl⟩ : String)) =
          "bearer " ++ (⟨tl⟩ : String) := by
        show goTrimSpace ⟨"bearer ".data ++ tl⟩ = ⟨"bearer ".data ++ tl⟩
        apply goTrimSpace_no_trim
        · have hb : isSpaceChar 'b' = false := by decide
          show List.dropWhile isSpaceChar ('b' :: ("earer ".data ++ tl)) =
            'b' :: ("earer ".data ++ tl)
          rw [List.dropWhile_cons, hb]
          simp
        · obtain ⟨c, l', hc⟩ : ∃ c l', tl.reverse = c :: l' := by
            cases hr : tl.reverse with
            | nil => exact absurd (by simpa using congrArg List.reverse hr) htlne'
            | cons c l' => exact ⟨c, l', rfl⟩
          have hcns : isSpaceChar c = false := by
            apply dropWhile_head_false c l'
            rw [← hc]
            simpa using ht2
          rw [List.reverse_append, hc]
          rw [List.cons_append, List.dropWhile_cons, hcns]
          simp
      rw [hts]
      rw [show ("bearer " ++ (⟨tl⟩ : String)) = (⟨"bearer ".data ++ tl⟩ : String) from rfl]
      rw [show goTrimPrefix (⟨"bearer ".data ++ tl⟩ : String) "bearer " =
        (if "bearer ".data.isPrefixOf ("bearer ".data ++ tl) then
          (⟨("bearer ".data ++ tl).drop "bearer ".data.length⟩ : String)
        else (⟨"bearer ".data ++ tl⟩ : String)) from rfl]
      rw [isPrefixOf_append_self]
      simp
  -- the bearer-prefix check passes under either capitalization
  have hlow : ("Bearer ".data.map Char.toLower) = "bearer ".data := by decide
  have hlow2 : ("bearer ".data.map Char.toLower) = "bearer ".data := by decide
  have hpre : strHasPrefix (strToLower req.authz) "bearer " = true := by
    rcases hauth with hA | hA
    · rw [hA]
      show "bearer ".data.isPrefixOf
        ((("Bearer " ++ (⟨tl⟩ : String)).data).map Char.toLower) = true
      rw [String.data_append, List.map_append, hlow]
      exact isPrefixOf_append_self _ _
    · rw [hA]
      show "bearer ".data.isPrefixOf
        ((("bearer " ++ (⟨tl⟩ : String)).data).map Char.toLower) = true
      rw [String.data_append, List.map_append, hlow2]
      exact isPrefixOf_append_self _ _
  have hne : req.authz ≠ "" := by
    rcases hauth with hA | hA <;> rw [hA] <;> intro h <;>
      · have h2 := congrArg String.data h
        simp at h2
  simp only [serveHTTP, hm, hct]
  rw [if_neg (by simp)]
  rw [if_neg (by simp)]
  rw [if_neg (by simp [hne, hpre])]
  rw [hextract, htok]
  rw [if_neg hsid]
  rcases hx with hx | hx
  · rw [if_neg (by simp [hx]), if_pos hx]
  · rw [if_neg (by simp [hx])]
    by_cases hxe : req.xSpipID = ""
    · rw [if_pos hxe]
    · rw [if_neg hxe, hx]

theorem scanEvents_codes (m : Int) :
    ∀ (evs : List (Option Nat)) (r : Nat × String),
    scanEvents m evs = some r → r.1 = 400 ∨ r.1 = 413 := by
  intro evs
  induction evs with
  | nil => intro r h; simp [scanEvents] at h
  | cons e rest ih =>
    intro r h
    cases e with
    | none =>
      simp [scanEvents] at h
      rw [← h]
      exact Or.inl rfl
    | some sz =>
      rw [scanEvents] at h
      by_cases hs : (sz : Int) > m
      · rw [if_pos hs] at h
        rw [← Option.some.inj h]
        exact Or.inr rfl
      · rw [if_neg hs] at h
        exact ih r h

theorem scanEvents_null (m : Int) :
    ∀ (evs : List (Option Nat)), none ∈ evs →
    (∀ e ∈ evs.takeWhile (fun e => e.isSome), ((e.getD 0 : Nat) : Int) ≤ m) →
    scanEvents m evs = some (400, "invalid_request") := by
  intro evs
  induction evs with
  | nil => intro h; simp at h
  | cons e rest ih =>
    intro hmem hsz
    cases e with
    | none => rfl
    | some sz =>
      have hmem' : none ∈ rest := by
        rcases List.mem_cons.mp hmem with h | h
        · exact absurd h (by simp)
        · exact h
      have hszh : ((sz : Nat) : Int) ≤ m := by
        have := hsz (some sz) (by simp [List.takeWhile_cons])
        simpa using this
      have hsz' : ∀ e ∈ rest.takeWhile (fun e => e.isSome),
          ((e.getD 0 : Nat) : Int) ≤ m := by
        intro e he
        exact hsz e (by simp [List.takeWhile_cons]; exact Or.inr he)
      rw [scanEvents, if_neg (by omega)]
      exact ih hmem' hsz'

/-- After the sensor id is resolved, the handler never answers 401, always
records at least one metric, and attributes every metric and the
`ProcessBatch` call to the resolved sensor id. -/
theorem afterAuth_spec (cfg : HandlerCfg) (lim : Limiter) (now : Int) (sid : String)
    (body : BodyParse) :
    (afterAuth cfg lim now sid body).1.status ≠ 401 ∧
    (afterAuth cfg lim now sid body).2.2 ≠ [] ∧
    (∀ e ∈ (afterAuth cfg lim now sid body).2.2, e.sensor = sid) := by
  cases body with
  | events evs =>
    simp only [afterAuth]
    split
    · simp [TraceEntry.sensor]
    · split
      · simp [respond, TraceEntry.sensor]
      · split
        · next cs heq =>
          rcases scanEvents_codes _ _ _ heq with h | h <;>
            simp [respond, TraceEntry.sensor, h]
        · split <;> simp [respond, TraceEntry.sensor]
  | tooLarge =>
    simp only [afterAuth]
    split <;> simp [respond, TraceEntry.sensor]
  | readErr =>
    simp only [afterAuth]
    split <;> simp [respond, TraceEntry.sensor]
  | notArray =>
    simp only [afterAuth]
    split <;> simp [respond, TraceEntry.sensor]
  | badJson =>
    simp only [afterAuth]
    split <;> simp [respond, TraceEntry.sensor]
  | nullArray =>
    simp only [afterAuth]
    split <;> simp [respond, TraceEntry.sensor]

theorem afterAuth_no204 (cfg : HandlerCfg) (lim : Limiter) (now : Int) (sid : String)
    (body : BodyParse) (s : String) :
    TraceEntry.incRequests s "204" ∉ (afterAuth cfg lim now sid body).2.2 := by
  cases body with
  | events evs =>
    simp only [afterAuth]
    split
    · simp [statusToString]
    · split
      · simp [statusToString]
      · split
        · next cs heq =>
          rcases scanEvents_codes _ _ _ heq with h | h <;> simp [statusToString, h]
        · split <;> simp [statusToString]
  | tooLarge =>
    simp only [afterAuth]
    split <;> simp [statusToString]
  | readErr =>
    simp only [afterAuth]
    split <;> simp [statusToString]
  | notArray =>
    simp only [afterAuth]
    split <;> simp [statusToString]
  | badJson =>
    simp only [afterAuth]
    split <;> simp [statusToString]
  | nullArray =>
    simp only [afterAuth]
    split <;> simp [statusToString]

theorem serveHTTP_no204 (cfg : HandlerCfg) (lim : Limiter) (now : Int)
    (req : Request) (s : String) :
    TraceEntry.incRequests s "204" ∉ (serveHTTP cfg lim now req).2.2 := by
  simp only [serveHTTP]
  repeat' split
  all_goals first
    | simp [statusToString]
    | exact afterAuth_no204 cfg lim now _ req.body s

/-- Handler configuration shared by the ingest counterexamples/witnesses:
one stored token, small batch limit, rate limiting disabled. -/
def cfgIngest : HandlerCfg :=
  { tokens := [("tok", "s1")]
    maxEvents := 2
    maxEventBytes := 100
    processOk := true }

/-- Request whose parsed body is an array with a null element and length 3
(over the batch limit of 2). -/
def reqC6 : Request :=
  { method := "POST"
    contentType := "application/json"
    authz := "Bearer tok"
    xSpipID := ""
    body := .events [some 1, none, some 1] }

/-- C6 counterexample: an authenticated, rate-admitted request whose JSON
array contains a null element AND exceeds `max_events_per_batch` is answered
413 `batch_too_large`, not 400 `invalid_request`: the handler checks the
batch length (ingest.go:125) before scanning for null elements
(ingest.go:133). -/
theorem ingest_null_after_length_cex :
    (none ∈ [some 1, none, some 1] ∧ 2 < ([some 1, none, some 1] : List (Option Nat)).length) ∧
    (serveHTTP cfgIngest (newPerSensorLimiter (-1)) 0 reqC6).1 =
      { status := 413, errSlug := some "batch_too_large", retryAfter := none } := by
  exact ⟨⟨by decide, by decide⟩, rfl⟩

/-- C6 (amended): for every authenticated, rate-admitted request whose body
parses as a JSON array containing a null element, the batch-length check
runs first: when the array length exceeds `max_events_per_batch` the
response is 413 `batch_too_large`; when the length is within the limit and
every element before the first null re-serializes to at most
`max_event_bytes`, the response is 400 `invalid_request`. -/
theorem ingest_null_element_spec (cfg : HandlerCfg) (lim : Limiter) (now : Int)
    (t sid : String) (req : Request) (evs : List (Option Nat))
    (hm : req.method = "POST")
    (hct : req.contentType = "application/json")
    (hauth : req.authz = "Bearer " ++ t ∨ req.authz = "bearer " ++ t)
    (htok : validate cfg.tokens t = sid)
    (hsid : sid ≠ "")
    (ht1 : t.data.dropWhile isSpaceChar = t.data)
    (ht2 : t.data.reverse.dropWhile isSpaceChar = t.data.reverse)
    (ht3 : "bearer ".data.isPrefixOf t.data = false)
    (hx : req.xSpipID = "" ∨ req.xSpipID = sid)
    (hb : req.body = .events evs)
    (hrate : (allow lim sid now).2 = true)
    (hnull : none ∈ evs) :
    (evs.length > cfg.maxEvents →
      (serveHTTP cfg lim now req).1 = respond 413 "batch_too_large") ∧
    (evs.length ≤ cfg.maxEvents →
      (∀ e ∈ evs.takeWhile (fun e => e.isSome), ((e.getD 0 : Nat) : Int) ≤ cfg.maxEventBytes) →
      (serveHTTP cfg lim now req).1 = respond 400 "invalid_request") := by
  rw [serveHTTP_auth_reduce cfg lim now t sid req hm hct hauth htok hsid ht1 ht2 ht3 hx,
    hb]
  constructor
  · intro hlen
    simp only [afterAuth]
    rw [if_neg (by simp [hrate])]
    rw [if_pos hlen]
  · intro hlen hsz
    simp only [afterAuth]
    rw [if_neg (by simp [hrate])]
    rw [if_neg (by omega)]
    rw [scanEvents_null cfg.maxEventBytes evs hnull hsz]

theorem ingest_null_element_spec_witness :
    ((2 : Nat) ≤ cfgIngest.maxEvents ∧ none ∈ ([some 1, none] : List (Option Nat))) ∧
    (serveHTTP cfgIngest (newPerSensorLimiter (-1)) 0
      { method := "POST", contentType := "application/json", authz := "Bearer tok",
        xSpipID := "", body := .events [some 1, none] }).1 =
      respond 400 "invalid_request" := by
  refine ⟨⟨by decide, by decide⟩, ?_⟩
  have h := ingest_null_element_spec cfgIngest (newPerSensorLimiter (-1)) 0
    "tok" "s1"
    { method := "POST", contentType := "application/json", authz := "Bearer tok",
      xSpipID := "", body := .events [some 1, none] }
    [some 1, none] rfl rfl (Or.inl rfl) rfl (by decide) (by decide) (by decide)
    (by decide) (Or.inl rfl) rfl (by decide) (by decide)
  exact h.2 (by decide) (by decide)

/-- Request with the all-caps `BEARER ` prefix on a stored token. -/
def reqC8 : Request :=
  { method := "POST"
    contentType := "application/json"
    authz := "BEARER tok"
    xSpipID := ""
    body := .events [some 1] }

/-- C8 counterexample: with the stored token "tok", the header
`Authorization: BEARER tok` passes the case-insensitive prefix check but the
extraction (`TrimPrefix "Bearer"` / `TrimPrefix "bearer "`) strips nothing,
so the token validated is "BEARER tok" and the handler answers 401. -/
theorem ingest_bearer_case_cex :
    (serveHTTP cfgIngest (newPerSensorLimiter (-1)) 0 reqC8).1.status = 401 ∧
    (serveHTTP cfgIngest (newPerSensorLimiter (-1)) 0 reqC8).1.errSlug =
      some "unauthorized" ∧
    (serveHTTP cfgIngest (newPerSensorLimiter (-1)) 0 reqC8).2.2 =
      [.incRequests "unknown" "401"] := by
  exact ⟨rfl, rfl, rfl⟩

/-- C8 (amended): for every stored token `t` (without surrounding whitespace
and not beginning with the bytes `bearer `), a POST request with JSON
content type and Authorization header equal to `Bearer t` or `bearer t` —
the two capitalizations the extraction code strips — passes the
authorization steps: the handler does not respond 401 and attributes all
request side effects to `t`'s sensor id. Other capitalizations of the prefix
(e.g. `BEARER t`) pass the prefix check but keep the prefix in the extracted
token and are rejected with 401. -/
theorem ingest_bearer_prefix_spec (cfg : HandlerCfg) (lim : Limiter) (now : Int)
    (t sid : String) (req : Request)
    (hm : req.method = "POST")
    (hct : req.contentType = "application/json")
    (hauth : req.authz = "Bearer " ++ t ∨ req.authz = "bearer " ++ t)
    (htok : validate cfg.tokens t = sid)
    (hsid : sid ≠ "")
    (ht1 : t.data.dropWhile isSpaceChar = t.data)
    (ht2 : t.data.reverse.dropWhile isSpaceChar = t.data.reverse)
    (ht3 : "bearer ".data.isPrefixOf t.data = false)
    (hx : req.xSpipID = "" ∨ req.xSpipID = sid) :
    (serveHTTP cfg lim now req).1.status ≠ 401 ∧
    (serveHTTP cfg lim now req).2.2 ≠ [] ∧
    (∀ e ∈ (serveHTTP cfg lim now req).2.2, e.sensor = sid) := by
  rw [serveHTTP_auth_reduce cfg lim now t sid req hm hct hauth htok hsid ht1 ht2 ht3 hx]
  exact afterAuth_spec cfg lim now sid req.body

theorem ingest_bearer_prefix_spec_witness :
    ((serveHTTP cfgIngest (newPerSensorLimiter (-1)) 0
      { method := "POST", contentType := "application/json", authz := "bearer tok",
        xSpipID := "", body := .events [some 1] }).1.status ≠ 401 ∧
      (serveHTTP cfgIngest (newPerSensorLimiter (-1)) 0
        { method := "POST", contentType := "application/json", authz := "bearer tok",
          xSpipID := "", body := .events [some 1] }).2.2 ≠ [] ∧
      (∀ e ∈ (serveHTTP cfgIngest (newPerSensorLimiter (-1)) 0
        { method := "POST", contentType := "application/json", authz := "bearer tok",
          xSpipID := "", body := .events [some 1] }).2.2, e.sensor = "s1")) :=
  ingest_bearer_prefix_spec cfgIngest (newPerSensorLimiter (-1)) 0 "tok" "s1"
    { method := "POST", contentType := "application/json", authz := "bearer tok",
      xSpipID := "", body := .events [some 1] }
    rfl rfl (Or.inr rfl) rfl (by decide) (by decide) (by decide) (by decide)
    (Or.inl rfl)

/-- C10: no request is ever counted under the metrics label "204"; and every
request that passes all admission checks first increments the per-sensor
request counter with label "200" and adds the batch's event count, then
invokes `ProcessBatch`, and — exactly when `ProcessBatch` fails — also
increments the counter with label "500" afterwards. -/
theorem ingest_metrics_spec (cfg : HandlerCfg) (lim : Limiter) (now : Int)
    (req : Request) (t sid : String) (evs : List (Option Nat)) :
    (∀ s, TraceEntry.incRequests s "204" ∉ (serveHTTP cfg lim now req).2.2) ∧
    (req.method = "POST" → req.contentType = "application/json" →
      (req.authz = "Bearer " ++ t ∨ req.authz = "bearer " ++ t) →
      validate cfg.tokens t = sid → sid ≠ "" →
      t.data.dropWhile isSpaceChar = t.data →
      t.data.reverse.dropWhile isSpaceChar = t.data.reverse →
      "bearer ".data.isPrefixOf t.data = false →
      (req.xSpipID = "" ∨ req.xSpipID = sid) →
      req.body = .events evs →
      (allow lim sid now).2 = true →
      evs.length ≤ cfg.maxEvents →
      scanEvents cfg.maxEventBytes evs = none →
      (serveHTTP cfg lim now req).2.2 =
        [.incRequests sid (statusToString 200), .addEvents sid evs.length,
         .processBatch sid evs] ++
          (if cfg.processOk then [] else [.incRequests sid (statusToString 500)])) := by
  constructor
  · intro s
    exact serveHTTP_no204 cfg lim now req s
  · intro hm hct hauth htok hsid ht1 ht2 ht3 hx hb hrate hlen hscan
    rw [serveHTTP_auth_reduce cfg lim now t sid req hm hct hauth htok hsid ht1 ht2 ht3 hx,
      hb]
    simp only [afterAuth]
    rw [if_neg (by simp [hrate])]
    rw [if_neg (by omega)]
    rw [hscan]
    by_cases hp : cfg.processOk
    · simp [hp]
    · simp [hp]

/-- Handler configuration for the C10 witness: `ProcessBatch` fails. -/
def cfgC10 : HandlerCfg :=
  { tokens := [("tok", "s1")]
    maxEvents := 2
    maxEventBytes := 100
    processOk := false }

/-- A fully admissible request for the C10 witness. -/
def reqC10 : Request :=
  { method := "POST"
    contentType := "application/json"
    authz := "Bearer tok"
    xSpipID := ""
    body := .events [some 1] }

theorem ingest_metrics_spec_witness :
    (serveHTTP cfgC10 (newPerSensorLimiter (-1)) 0 reqC10).2.2 =
      [.incRequests "s1" (statusToString 200), .addEvents "s1" 1,
       .processBatch "s1" [some 1], .incRequests "s1" (statusToString 500)] := by
  have h := (ingest_metrics_spec cfgC10 (newPerSensorLimiter (-1)) 0 reqC10
    "tok" "s1" [some 1]).2
    rfl rfl (Or.inl rfl) rfl (by decide) (by decide) (by decide) (by decide)
    (Or.inl rfl) rfl (by decide) (by decide) (by decide)
  simpa using h

end Loom
